import Mathlib

/-!
Shallow embedding of the ai-doc-assistant backend core: the answer/citation
parser of `askQuestion` (src/backend, openaiService), the document text
extractor (`processDocument` and the per-format extractors), the in-memory
session store with `chatWithDocument`, the transcript exporter `exportNotes`,
and the upload boundary (`fileFilter`, multer `storage` filename, size limit).

Strings are modelled as `List Char`; JavaScript string operations (`trim`,
case-insensitive literal regex search, the bracket-extraction regex
`\[([^\]]+)\]` with the `g` flag) are embedded as executable functions whose
semantics are traced from the ECMAScript behaviour of the exact regexes and
methods appearing in the source.
-/

namespace DocQA

/-- Strings as lists of characters. -/
abbrev Str := List Char

/-- Convert a Lean string literal to the `List Char` model. -/
def str (s : String) : Str := s.data

/-- JavaScript whitespace as relevant to `\s` and `String.prototype.trim`
restricted to the ASCII range (space, tab, LF, VT, FF, CR). -/
def isSpaceChar (c : Char) : Bool :=
  c = ' ' || c = '\t' || c = '\n' || c = '\x0b' || c = '\x0c' || c = '\r'

/-- Model of `s.trimStart()` / the leading half of `s.trim()`. -/
def trimLeft (s : Str) : Str := s.dropWhile isSpaceChar

/-- Model of the trailing half of `s.trim()`. -/
def trimRight (s : Str) : Str := (s.reverse.dropWhile isSpaceChar).reverse

/-- Model of `s.trim()`. -/
def trimStr (s : Str) : Str := trimRight (trimLeft s)

/-- Case-insensitive prefix test: does `s` start with pattern `pat` under the
regex `i` flag (ASCII simple case folding via `Char.toLower`)? -/
def isPrefixCI : Str → Str → Bool
  | [], _ => true
  | _ :: _, [] => false
  | p :: ps, c :: cs => p.toLower = c.toLower && isPrefixCI ps cs

/-- Find the first case-insensitive occurrence of the literal `pat` in `s` and
return the remainder of `s` after that occurrence (`none` if absent).  This is
the position where a regex starting with the literal `pat` (with the `i` flag)
first matches, as used by `fullResponse.match(/ANSWER:.../i)` and
`fullResponse.match(/CITATIONS:.../i)`. -/
def findAfterCI (pat : Str) : Str → Option Str
  | [] => if isPrefixCI pat [] then some [] else none
  | c :: cs =>
    if isPrefixCI pat (c :: cs) then some ((c :: cs).drop pat.length)
    else findAfterCI pat cs

/-- The prefix of `s` before the first case-insensitive occurrence of `pat`
(all of `s` when `pat` does not occur).  This is what the lazy group
`([\s\S]*?)` followed by the lookahead `(?=PAT|$)` captures. -/
def takeUntilCI (pat : Str) : Str → Str
  | [] => []
  | c :: cs => if isPrefixCI pat (c :: cs) then [] else c :: takeUntilCI pat cs

/-- Contents of every match of the global regex `\[([^\]]+)\]` in order, as a
left-to-right scan: a `[` opens a candidate match; subsequent non-`]`
characters (including further `[`) form the candidate's content; a `]` closes
it, yielding a match exactly when the content is non-empty (the regex requires
one or more non-`]` characters).  An empty pair `[]` yields no match and the
scan resumes after its `[`, and an unclosed `[` never matches — both as under
ECMAScript leftmost-first matching. -/
def bracketScan : Str → Option Str → List Str
  | [], _ => []
  | c :: cs, none =>
    if c = '[' then bracketScan cs (some []) else bracketScan cs none
  | c :: cs, some buf =>
    if c = ']' then
      if buf.isEmpty then bracketScan cs none
      else buf :: bracketScan cs none
    else bracketScan cs (some (buf ++ [c]))

/-- All `\[([^\]]+)\]` match contents of a string. -/
def bracketContents (s : Str) : List Str := bracketScan s none

/-- The literal marker `ANSWER:`. -/
def ansMarker : Str := str "ANSWER:"

/-- The literal marker `CITATIONS:`. -/
def citMarker : Str := str "CITATIONS:"

/-- Embedding of
`fullResponse.match(/ANSWER:\s*([\s\S]*?)(?=CITATIONS:|$)/i)` followed by
`answerMatch ? answerMatch[1].trim() : fullResponse`: at the first
case-insensitive occurrence of `ANSWER:`, the greedy `\s*` consumes the
whitespace run and the lazy group captures up to the first case-insensitive
`CITATIONS:` (or to the end of the string), and the capture is trimmed; when
the marker is absent, the whole raw output is used untrimmed. -/
def answerOf (full : Str) : Str :=
  match findAfterCI ansMarker full with
  | none => full
  | some rest => trimStr (takeUntilCI citMarker (rest.dropWhile isSpaceChar))

/-- Embedding of `fullResponse.match(/CITATIONS:\s*([\s\S]*?)$/i)` followed by
`citationsMatch ? citationsMatch[1].trim() : ""`: everything after the first
case-insensitive `CITATIONS:` to the end of the string, trimmed (the greedy
`\s*` only removes leading whitespace that `trim` removes anyway); the empty
string when the marker is absent. -/
def citationsTextOf (full : Str) : Str :=
  match findAfterCI citMarker full with
  | none => []
  | some rest => trimStr rest

/-- Per-match processing `match.replace(/[\[\]]/g, "").trim()` applied to a
match of `\[([^\]]+)\]` whose full text is `'[' ++ content ++ ']'`: removing
every bracket character from the full match leaves the non-bracket characters
of the content (the content cannot contain `]` but may contain `[`), which is
then trimmed. -/
def citeOfMatch (content : Str) : Str :=
  trimStr (content.filter (fun d => d ≠ '[' && d ≠ ']'))

/-- Embedding of the `forEach` push loop over the citation matches:
`if (citation && !citations.includes(citation)) citations.push(citation)` —
a left fold that appends each processed citation that is non-empty (JavaScript
truthiness of the string) and not yet present (case-sensitive `includes`). -/
def collectCites (acc : List Str) : List Str → List Str
  | [] => acc
  | m :: ms =>
    let cite := citeOfMatch m
    if cite ≠ [] ∧ cite ∉ acc then collectCites (acc ++ [cite]) ms
    else collectCites acc ms

/-- Parsed model output. -/
structure QuestionAnswerResult where
  answer : Str
  citations : List Str
  deriving DecidableEq, Repr

/-- Embedding of the response-parsing tail of `askQuestion`
(src/backend openaiService, the code after `fullResponse` is obtained):
answer extraction, first citation pass over the `CITATIONS:` section (guarded
by the truthiness of `citationsText`), and the fallback pass over the answer
text when the first pass produced nothing. -/
def parseQA (full : Str) : QuestionAnswerResult :=
  let answer := answerOf full
  let citationsText := citationsTextOf full
  let citations :=
    if citationsText.isEmpty then []
    else collectCites [] (bracketContents citationsText)
  let citations' :=
    if citations.isEmpty then collectCites [] (bracketContents answer)
    else citations
  ⟨answer, citations'⟩

/-! ### Spec-side definitions for the Answer Formatter claims

These definitions follow the wording of the specification sentences, to be
compared with the source-derived `parseQA` above. -/

/-- Spec wording for the answer: the text between the case-insensitive marker
`ANSWER:` and the next occurrence of `CITATIONS:` (or end of string), trimmed
of surrounding whitespace; when the marker is absent, the entire raw output. -/
def specAnswerText (full : Str) : Str :=
  match findAfterCI ansMarker full with
  | none => full
  | some rest => trimStr (takeUntilCI citMarker rest)

/-- Spec wording for deduplication: an ordered list with first occurrence
winning, under case-sensitive equality; `seen` accumulates the output. -/
def dedupFirst (seen : List Str) : List Str → List Str
  | [] => seen
  | c :: cs => if c ∈ seen then dedupFirst seen cs else dedupFirst (seen ++ [c]) cs

/-- The claim's extraction rule, word by word: every bracketed substring is
extracted, its brackets stripped, its content trimmed of whitespace, and the
results collected into an ordered list deduplicated case-sensitively with
first occurrence winning.  (No further filtering: an entry that trims to the
empty string is collected like any other.) -/
def claimExtract (s : Str) : List Str :=
  dedupFirst [] ((bracketContents s).map citeOfMatch)

/-- The citation list as claim C1 states it: first pass over the
`CITATIONS:` section, falling back to the answer text if and only if the
first pass yields zero citations. -/
def claimCitations (full : Str) : List Str :=
  let firstPass := claimExtract (citationsTextOf full)
  if firstPass.isEmpty then claimExtract (answerOf full) else firstPass

/-- The amended extraction rule: as `claimExtract`, except that a bracketed
substring whose content is empty after trimming is discarded rather than
collected. -/
def claimExtractAmended (s : Str) : List Str :=
  dedupFirst [] (((bracketContents s).map citeOfMatch).filter (fun c => !c.isEmpty))

/-- The citation list as amended claim C1 states it. -/
def claimCitationsAmended (full : Str) : List Str :=
  let firstPass := claimExtractAmended (citationsTextOf full)
  if firstPass.isEmpty then claimExtractAmended (answerOf full) else firstPass

/-! ### Text extractor (documentProcessor) -/

/-- Result type of `processDocument` (ProcessDocumentResult in types). -/
structure ProcessDocumentResult where
  success : Bool
  text : Str
  error : Option Str
  deriving DecidableEq, Repr

/-- Outcome of the external decoding collaborator for one file: `readErr`
models the library call (or `fs.readFile`) throwing with a message; `decoded`
models it returning the raw text (a missing/`undefined` text field behaves as
the empty string under the `!text` check). -/
inductive DecodeOutcome where
  | readErr (msg : Str)
  | decoded (text : Str)
  deriving DecidableEq, Repr

/-- Embedding of `extractTextFromPDF`: any decoder error, and a decoded text
that is empty after trimming, are rewrapped into a thrown error with the
function's message prefix; otherwise the raw (untrimmed) text is returned. -/
def extractTextFromPDF (outcome : DecodeOutcome) : Except Str Str :=
  match outcome with
  | .readErr msg => .error (str "Failed to extract text from PDF: " ++ msg)
  | .decoded text =>
    if (trimStr text).isEmpty then
      .error (str "Failed to extract text from PDF: PDF document is empty or contains no extractable text")
    else .ok text

/-- Embedding of `extractTextFromDOCX` (mammoth's `result.value`). -/
def extractTextFromDOCX (outcome : DecodeOutcome) : Except Str Str :=
  match outcome with
  | .readErr msg => .error (str "Failed to extract text from DOCX: " ++ msg)
  | .decoded text =>
    if (trimStr text).isEmpty then
      .error (str "Failed to extract text from DOCX: DOCX document is empty or contains no extractable text")
    else .ok text

/-- Embedding of `extractTextFromTXT` (`fs.readFile(filePath, "utf-8")`). -/
def extractTextFromTXT (outcome : DecodeOutcome) : Except Str Str :=
  match outcome with
  | .readErr msg => .error (str "Failed to read TXT file: " ++ msg)
  | .decoded text =>
    if (trimStr text).isEmpty then
      .error (str "Failed to read TXT file: TXT file is empty")
    else .ok text

/-- The three accepted MIME types (ALLOWED_MIME_TYPES in types). -/
def pdfMime : Str := str "application/pdf"

/-- DOCX MIME type. -/
def docxMime : Str :=
  str "application/vnd.openxmlformats-officedocument.wordprocessingml.document"

/-- Plain-text MIME type. -/
def txtMime : Str := str "text/plain"

/-- Embedding of `processDocument(filePath, mimetype)`: the `fs.access`
existence check, the `switch` on the declared MIME type dispatching to the
per-format extractor, trimming of the extracted text on success, and the
surrounding `try/catch` that rewraps any thrown extractor error into a
failure result with empty text. -/
def processDocument (fileExists : Bool) (mimetype : Str)
    (outcome : DecodeOutcome) : ProcessDocumentResult :=
  if !fileExists then ⟨false, [], some (str "File not found")⟩
  else
    let extracted : Except Str Str :=
      if mimetype = pdfMime then extractTextFromPDF outcome
      else if mimetype = docxMime then extractTextFromDOCX outcome
      else if mimetype = txtMime then extractTextFromTXT outcome
      else .error (str "Unsupported file type: " ++ mimetype)
    match extracted with
    | .ok t => ⟨true, trimStr t, none⟩
    | .error msg => ⟨false, [], some msg⟩

/-! ### Session store and chat orchestration (documentController) -/

/-- Conversation roles (`"user" | "model"`). -/
inductive Role where
  | user
  | model
  deriving DecidableEq, Repr

/-- One conversation turn (ConversationMessage in types). -/
structure ConversationMessage where
  role : Role
  content : Str
  deriving DecidableEq, Repr

/-- One document session (DocumentSession in types).  `uploadedAtShown`
models `session.uploadedAt.toLocaleString()`: `uploadedAt` is immutable and
the process locale is fixed, so the rendered form is a fixed string per
session. -/
structure DocumentSession where
  filename : Str
  filepath : Str
  mimetype : Str
  text : Str
  uploadedAtShown : Str
  conversationHistory : List ConversationMessage
  deriving DecidableEq, Repr

/-- Result of `askQuestion` (AIServiceResult in types): a success flag, an
optional payload and an optional error message, kept separate exactly as in
the source so that the caller's `!result.success || !result.data` check can
be embedded faithfully. -/
structure AIServiceQA where
  success : Bool
  data : Option QuestionAnswerResult
  error : Option Str
  deriving DecidableEq, Repr

/-- Outcome of the external OpenAI chat-completion call: `threw` models the
awaited call throwing (network failure, timeout, API error); `returned`
models a completed call, with `none` standing for a missing
`choices[0]?.message?.content` (which the source coalesces to `""`). -/
inductive ModelCall where
  | threw (msg : Str)
  | returned (content : Option Str)
  deriving DecidableEq, Repr

/-- Embedding of `askQuestion(question, documentText, conversationHistory)`:
the blank-question and blank-document guards, the `OPENAI_API_KEY` presence
check, the external call, the `|| ""` coalescing of a missing content, and
the parse of the full response.  The construction of the prompt messages is
elided: it only feeds the external collaborator and does not affect the
returned value.  The conversation history likewise only shapes the prompt,
so it is not a parameter here. -/
def askQuestion (question documentText : Str) (hasKey : Bool)
    (call : ModelCall) : AIServiceQA :=
  if (trimStr question).isEmpty then
    ⟨false, none, some (str "Question cannot be empty")⟩
  else if (trimStr documentText).isEmpty then
    ⟨false, none, some (str "Document text is empty")⟩
  else if !hasKey then
    ⟨false, none, some (str "OPENAI_API_KEY is not configured")⟩
  else
    match call with
    | .threw msg => ⟨false, none, some (str "Failed to answer question: " ++ msg)⟩
    | .returned content => ⟨true, some (parseQA (content.getD [])), none⟩

/-- The process-wide `documentSessions` map, modelled as an association list
with pairwise-distinct keys (uuid keys are unique by construction). -/
abbrev SessionStore := List (Str × DocumentSession)

/-- Embedding of `documentSessions.get(sessionId)`. -/
def findSession : SessionStore → Str → Option DocumentSession
  | [], _ => none
  | (k, s) :: rest, sid => if k = sid then some s else findSession rest sid

/-- Replace the stored conversation history of session `sid` — the effect of
the two in-place `session.conversationHistory.push` calls on the session
object held by the map. -/
def setHistory : SessionStore → Str → List ConversationMessage → SessionStore
  | [], _, _ => []
  | (k, s) :: rest, sid, h =>
    if k = sid then (k, { s with conversationHistory := h }) :: rest
    else (k, s) :: setHistory rest sid h

/-- The HTTP responses `chatWithDocument` can produce. -/
inductive ChatResp where
  | badRequest (error message : Str)
  | notFound (error message : Str)
  | serverError (error message : Str)
  | ok (answer : Str) (citations : List Str)
      (conversationHistory : List ConversationMessage)
  deriving DecidableEq, Repr

/-- Embedding of the `chatWithDocument` handler: the truthiness check on
`sessionId` and `question`, the session lookup, the `askQuestion` call, the
`!result.success || !result.data` error path with
`result.error || "Failed to generate response"`, and on success the two
history pushes followed by the 200 response carrying the post-append
history.  The updated store is returned alongside the response. -/
def chatWithDocument (sessions : SessionStore) (sessionId question : Str)
    (hasKey : Bool) (call : ModelCall) : ChatResp × SessionStore :=
  if sessionId.isEmpty || question.isEmpty then
    (.badRequest (str "Invalid request") (str "sessionId and question are required"),
      sessions)
  else
    match findSession sessions sessionId with
    | none =>
      (.notFound (str "Session not found") (str "Invalid sessionId or session expired"),
        sessions)
    | some session =>
      if !(askQuestion question session.text hasKey call).success then
        (.serverError (str "AI service error")
          ((askQuestion question session.text hasKey call).error.getD
            (str "Failed to generate response")), sessions)
      else
        match (askQuestion question session.text hasKey call).data with
        | none =>
          (.serverError (str "AI service error")
            ((askQuestion question session.text hasKey call).error.getD
              (str "Failed to generate response")), sessions)
        | some d =>
          (.ok d.answer d.citations
            (session.conversationHistory ++
              [⟨.user, question⟩, ⟨.model, d.answer⟩]),
            setHistory sessions sessionId
              (session.conversationHistory ++
                [⟨.user, question⟩, ⟨.model, d.answer⟩]))

/-- Run a sequence of chat calls against one session id, collecting the
responses and threading the store. -/
def runChat (sid : Str) (hasKey : Bool) :
    SessionStore → List (Str × ModelCall) → List ChatResp × SessionStore
  | store, [] => ([], store)
  | store, (q, call) :: rest =>
    ((chatWithDocument store sid q hasKey call).1 ::
      (runChat sid hasKey (chatWithDocument store sid q hasKey call).2 rest).1,
      (runChat sid hasKey (chatWithDocument store sid q hasKey call).2 rest).2)

/-- Whether a chat response is the 200 success case. -/
def ChatResp.isOk : ChatResp → Bool
  | .ok _ _ _ => true
  | _ => false

/-- The answer carried by a 200 chat response (empty otherwise). -/
def ChatResp.answerOf : ChatResp → Str
  | .ok a _ _ => a
  | _ => []

/-- The post-append history carried by a 200 chat response. -/
def ChatResp.historyOf : ChatResp → List ConversationMessage
  | .ok _ _ h => h
  | _ => []

/-- The conversation history currently stored for session `sid` (empty when
the session is absent). -/
def historyIn (store : SessionStore) (sid : Str) : List ConversationMessage :=
  match findSession store sid with
  | some s => s.conversationHistory
  | none => []

/-- The alternating user/model turns that a sequence of chat calls is
expected to append: for each call, its question paired with the answer
carried by its response. -/
def pairsOf : List (Str × ModelCall) → List ChatResp → List ConversationMessage
  | (q, _) :: ins, r :: rs =>
    ⟨.user, q⟩ :: ⟨.model, r.answerOf⟩ :: pairsOf ins rs
  | _, _ => []

/-! ### Transcript exporter (exportNotes) -/

/-- One rendered question/answer block of the export loop body, for the
pair at loop index `i = 2 * n`; the heading number is
`Math.floor(i / 2) + 1 = n + 1`. -/
def qaBlock (q a : ConversationMessage) (n : Nat) : Str :=
  str "## Q" ++ (Nat.repr (n + 1)).data ++ str ": " ++ q.content ++ str "\n\n" ++
  str "**Answer:**\n\n" ++ a.content ++ str "\n\n" ++
  str "---\n\n"

/-- Embedding of the export loop
`for (let i = 0; i < history.length; i += 2)` with its
`if (question && answer)` guard: turns are consumed two at a time, and a
trailing turn with no successor (where `history[i + 1]` is `undefined`)
contributes nothing.  `n` counts the pairs already rendered. -/
def qaPairs : List ConversationMessage → Nat → Str
  | q :: a :: rest, n => qaBlock q a n ++ qaPairs rest (n + 1)
  | _, _ => []

/-- The metadata header of the exported markdown (the part of the assembly
before the question/answer pairs). -/
def exportHeader (s : DocumentSession) : Str :=
  str "# Document Q&A Notes\n\n" ++
  str "**Document:** " ++ s.filename ++ str "\n" ++
  str "**Date:** " ++ s.uploadedAtShown ++ str "\n\n" ++
  str "---\n\n"

/-- Exactly `k` rendered question/answer blocks drawn from positions
`2*i` and `2*i + 1` of the history, numbered from `n`. -/
def qaBlocksFrom (h : List ConversationMessage) (k n : Nat) : Str :=
  ((List.range k).map (fun i =>
    qaBlock (h.getD (2*i) ⟨.user, []⟩) (h.getD (2*i+1) ⟨.user, []⟩) (n + i))).flatten

/-- A concrete session with a dangling third turn, for the C10 witness. -/
def sampleOddSession : DocumentSession :=
  ⟨str "notes.txt", str "uploads/notes.txt", txtMime, str "doc body",
    str "1/1/2026, 10:00:00 AM",
    [⟨.user, str "q1"⟩, ⟨.model, str "a1"⟩, ⟨.user, str "dangling"⟩]⟩

/-- Embedding of the markdown assembly of `exportNotes`: title, metadata
block, horizontal rule, then either the empty-history notice or the rendered
question/answer pairs. -/
def exportMarkdown (s : DocumentSession) : Str :=
  str "# Document Q&A Notes\n\n" ++
  str "**Document:** " ++ s.filename ++ str "\n" ++
  str "**Date:** " ++ s.uploadedAtShown ++ str "\n\n" ++
  str "---\n\n" ++
  (if s.conversationHistory.isEmpty then str "No questions asked yet.\n"
   else qaPairs s.conversationHistory 0)

/-- Embedding of `session.filename.replace(/\.[^/.]+$/, "")`: remove a final
suffix consisting of a dot followed by one or more characters none of which
is a dot or a slash; leave the name unchanged when no such suffix exists. -/
def stripLastExt (name : Str) : Str :=
  let revTail := name.reverse.takeWhile (fun c => c != '.' && c != '/')
  match name.reverse.drop revTail.length with
  | '.' :: preRev => if revTail.isEmpty then name else preRev.reverse
  | _ => name

/-- The export download filename: original name without its extension,
with `_notes.md` appended. -/
def exportFilename (filename : Str) : Str :=
  stripLastExt filename ++ str "_notes.md"

/-- The HTTP responses `exportNotes` can produce. -/
inductive ExportResp where
  | badRequest (error message : Str)
  | notFound (error message : Str)
  | success (markdown filename : Str)
  deriving DecidableEq, Repr

/-- Embedding of the `exportNotes` handler: the `sessionId` truthiness check,
the session lookup, and the markdown/filename assembly.  The handler performs
no write to any session, so every branch returns the store it received. -/
def exportNotes (sessions : SessionStore) (sessionId : Str) :
    ExportResp × SessionStore :=
  if sessionId.isEmpty then
    (.badRequest (str "Invalid request") (str "sessionId is required"), sessions)
  else
    match findSession sessions sessionId with
    | none =>
      (.notFound (str "Session not found") (str "Invalid sessionId or session expired"),
        sessions)
    | some s => (.success (exportMarkdown s) (exportFilename s.filename), sessions)

/-! ### Upload boundary (upload middleware) -/

/-- The basename of a path: the part after the last slash (models Node's
`path.basename` on the names at hand). -/
def basenameOf (p : Str) : Str :=
  (p.reverse.takeWhile (fun c => c != '/')).reverse

/-- Model of Node's `path.extname`: the suffix of the basename from its last
dot, or the empty string when the basename has no dot, when its only dot is
its leading character, or when the basename is `..`. -/
def extname (p : Str) : Str :=
  let base := basenameOf p
  let tailAfterDot := (base.reverse.takeWhile (fun c => c != '.')).reverse
  if base = str ".." then []
  else if tailAfterDot.length = base.length then []
  else if tailAfterDot.length + 1 = base.length then []
  else '.' :: tailAfterDot

/-- Model of Node's `path.basename(p, ext)`: the basename, with the given
extension removed when it is a proper suffix of the basename. -/
def basenameWithout (p ext : Str) : Str :=
  let base := basenameOf p
  if ext ≠ [] ∧ base ≠ ext ∧ ext.isSuffixOf base then
    base.take (base.length - ext.length)
  else base

/-- The accepted extensions (ALLOWED_EXTENSIONS in types). -/
def ALLOWED_EXTENSIONS : List Str := [str ".pdf", str ".docx", str ".txt"]

/-- The accepted declared MIME types (ALLOWED_MIME_TYPES in types). -/
def ALLOWED_MIME_TYPES : List Str := [pdfMime, docxMime, txtMime]

/-- The maximum upload size in bytes (MAX_FILE_SIZE in types). -/
def MAX_FILE_SIZE : Nat := 10 * 1024 * 1024

/-- Embedding of the multer `fileFilter`: the lowercased extension must be in
the extension allow-list, and the declared MIME type must be in the MIME
allow-list — two independent membership checks, with no cross-check that the
extension and the MIME type denote the same format.  Returns the rejection
message, or `none` for acceptance. -/
def fileFilter (originalname mimetype : Str) : Option Str :=
  let ext := (extname originalname).map Char.toLower
  if ext ∉ ALLOWED_EXTENSIONS then
    some (str "Invalid file type. Only .pdf, .docx, .txt files are allowed.")
  else if mimetype ∉ ALLOWED_MIME_TYPES then
    some (str "Invalid MIME type. File must be PDF, DOCX, or TXT.")
  else none

/-- Decision of the upload boundary for one file. -/
inductive UploadDecision where
  | typeRejected (message : Str)
  | sizeRejected
  | accepted
  deriving DecidableEq, Repr

/-- The upload boundary as configured on the multer instance: `fileFilter`
runs on the file's metadata, and the `limits.fileSize` check (an external
multer/busboy behaviour) aborts with `LIMIT_FILE_SIZE` — surfaced by
`handleMulterError` as the 400 size error — once the streamed bytes exceed
`MAX_FILE_SIZE`; a file of exactly the limit passes. -/
def uploadBoundary (originalname mimetype : Str) (size : Nat) : UploadDecision :=
  match fileFilter originalname mimetype with
  | some msg => .typeRejected msg
  | none => if size > MAX_FILE_SIZE then .sizeRejected else .accepted

/-- Embedding of the multer `storage.filename` callback: the extension and
the extension-free base of the original name, the base sanitized by
`replace(/[^a-zA-Z0-9-_]/g, "_")` — every character outside the class of
ASCII letters, digits, hyphen and underscore becomes an underscore — then
`base_timestamp` with the extension appended. -/
def sanitizeChar (c : Char) : Char :=
  if ('a' ≤ c ∧ c ≤ 'z') ∨ ('A' ≤ c ∧ c ≤ 'Z') ∨ ('0' ≤ c ∧ c ≤ '9')
      ∨ c = '-' ∨ c = '_' then c
  else '_'

/-- The on-disk name generated by the storage engine for an upload with the
given original name at the given timestamp (`Date.now()` value). -/
def storageFilename (originalname : Str) (timestamp : Nat) : Str :=
  let ext := extname originalname
  let nameWithoutExt := basenameWithout originalname ext
  let sanitized := nameWithoutExt.map sanitizeChar
  sanitized ++ ['_'] ++ (Nat.repr timestamp).data ++ ext

/-! ### Spec-side definitions for the storage-name claim -/

/-- Claim C9's sanitization rule, word by word: every non-alphanumeric
character of the base name becomes an underscore (alphanumeric being ASCII
letters and digits). -/
def claimSanitize (c : Char) : Char :=
  if ('0' ≤ c ∧ c ≤ '9') ∨ ('A' ≤ c ∧ c ≤ 'Z') ∨ ('a' ≤ c ∧ c ≤ 'z') then c
  else '_'

/-- The on-disk name as claim C9 states it. -/
def claimStorageName (originalname : Str) (timestamp : Nat) : Str :=
  let ext := extname originalname
  ((basenameWithout originalname ext).map claimSanitize) ++ ['_'] ++
    (Nat.repr timestamp).data ++ ext

/-- The amended sanitization rule: every character other than ASCII letters,
digits, hyphen and underscore becomes an underscore. -/
def claimSanitizeAmended (c : Char) : Char :=
  if c = '-' ∨ c = '_' ∨ ('0' ≤ c ∧ c ≤ '9') ∨ ('A' ≤ c ∧ c ≤ 'Z')
      ∨ ('a' ≤ c ∧ c ≤ 'z') then c
  else '_'

/-- The on-disk name as amended claim C9 states it. -/
def claimStorageNameAmended (originalname : Str) (timestamp : Nat) : Str :=
  let ext := extname originalname
  ((basenameWithout originalname ext).map claimSanitizeAmended) ++ ['_'] ++
    (Nat.repr timestamp).data ++ ext

/-! ### Helper lemmas about trimming -/

theorem trimLeft_idem (s : Str) : trimLeft (trimLeft s) = trimLeft s :=
  List.dropWhile_idempotent isSpaceChar s

theorem trimRight_idem (s : Str) : trimRight (trimRight s) = trimRight s := by
  unfold trimRight
  rw [List.reverse_reverse, List.dropWhile_idempotent]

theorem trimRight_cons_shape (a : Char) (rest : Str) :
    trimRight (a :: rest) = [] ∨ ∃ t, trimRight (a :: rest) = a :: t := by
  unfold trimRight
  have hrev : (a :: rest).reverse = rest.reverse ++ [a] := by simp
  rw [hrev, List.dropWhile_append]
  by_cases hemp : (rest.reverse.dropWhile isSpaceChar).isEmpty
  · rw [if_pos hemp]
    by_cases hpa : isSpaceChar a
    · left
      rw [List.dropWhile_cons_of_pos hpa]
      rfl
    · right
      refine ⟨[], ?_⟩
      rw [List.dropWhile_cons_of_neg hpa]
      rfl
  · rw [if_neg hemp]
    right
    exact ⟨(rest.reverse.dropWhile isSpaceChar).reverse, by simp⟩

theorem trimLeft_of_trimLeft_fixed (s : Str) (h : trimLeft s = s) :
    trimLeft (trimRight s) = trimRight s := by
  cases s with
  | nil => rfl
  | cons a rest =>
    have ha : ¬ isSpaceChar a = true := by
      cases hval : isSpaceChar a
      · simp
      · exfalso
        unfold trimLeft at h
        rw [List.dropWhile_cons_of_pos hval] at h
        have hle := (List.dropWhile_sublist (l := rest) isSpaceChar).length_le
        rw [h] at hle
        simp at hle
    rcases trimRight_cons_shape a rest with hsh | ⟨t, hsh⟩
    · rw [hsh]; rfl
    · rw [hsh]
      unfold trimLeft
      rw [List.dropWhile_cons_of_neg ha]

theorem trimStr_idem (s : Str) : trimStr (trimStr s) = trimStr s := by
  unfold trimStr
  rw [trimLeft_of_trimLeft_fixed (trimLeft s) (trimLeft_idem s), trimRight_idem]

theorem trimStr_nil : trimStr [] = [] := rfl

/-! ### C4: extraction result shape -/

theorem extractPDF_ok_trim_ne (outcome : DecodeOutcome) (t : Str)
    (h : extractTextFromPDF outcome = .ok t) : trimStr t ≠ [] := by
  unfold extractTextFromPDF at h
  cases outcome with
  | readErr m => exact absurd h (by simp)
  | decoded text =>
    dsimp only at h
    by_cases hemp : (trimStr text).isEmpty
    · rw [if_pos hemp] at h
      exact absurd h (by simp)
    · rw [if_neg hemp] at h
      injection h with h'
      subst h'
      simpa using hemp

theorem extractDOCX_ok_trim_ne (outcome : DecodeOutcome) (t : Str)
    (h : extractTextFromDOCX outcome = .ok t) : trimStr t ≠ [] := by
  unfold extractTextFromDOCX at h
  cases outcome with
  | readErr m => exact absurd h (by simp)
  | decoded text =>
    dsimp only at h
    by_cases hemp : (trimStr text).isEmpty
    · rw [if_pos hemp] at h
      exact absurd h (by simp)
    · rw [if_neg hemp] at h
      injection h with h'
      subst h'
      simpa using hemp

theorem extractTXT_ok_trim_ne (outcome : DecodeOutcome) (t : Str)
    (h : extractTextFromTXT outcome = .ok t) : trimStr t ≠ [] := by
  unfold extractTextFromTXT at h
  cases outcome with
  | readErr m => exact absurd h (by simp)
  | decoded text =>
    dsimp only at h
    by_cases hemp : (trimStr text).isEmpty
    · rw [if_pos hemp] at h
      exact absurd h (by simp)
    · rw [if_neg hemp] at h
      injection h with h'
      subst h'
      simpa using hemp

/-- Claim C4: every `ExtractionResult` returned by the extractor is in
exactly one of two shapes — `success = true` with a non-empty, trimmed
`text`, or `success = false` with `text` the empty string — for every input
path state, declared content type, and decoder outcome. -/
theorem extraction_result_shape (fileExists : Bool) (mimetype : Str)
    (outcome : DecodeOutcome) :
    (let r := processDocument fileExists mimetype outcome
     (r.success = true ∧ r.text ≠ [] ∧ trimStr r.text = r.text) ∨
     (r.success = false ∧ r.text = [])) := by
  have hshape : ∀ e : Except Str Str, (∀ t, e = .ok t → trimStr t ≠ []) →
      (let r := match e with
        | .ok t => (⟨true, trimStr t, none⟩ : ProcessDocumentResult)
        | .error msg => (⟨false, [], some msg⟩ : ProcessDocumentResult)
       (r.success = true ∧ r.text ≠ [] ∧ trimStr r.text = r.text) ∨
       (r.success = false ∧ r.text = [])) := by
    intro e hok
    cases e with
    | ok t => exact Or.inl ⟨rfl, hok t rfl, trimStr_idem t⟩
    | error msg => exact Or.inr ⟨rfl, rfl⟩
  unfold processDocument
  by_cases hfe : fileExists
  · simp only [hfe, Bool.not_true, Bool.false_eq_true, if_false]
    apply hshape
    intro t ht
    split_ifs at ht
    all_goals
      first
      | exact extractPDF_ok_trim_ne outcome t ht
      | exact extractDOCX_ok_trim_ne outcome t ht
      | exact extractTXT_ok_trim_ne outcome t ht
  · simp only [hfe]
    right
    exact ⟨rfl, rfl⟩

/-! ### C7: TXT round trip -/

/-- Claim C7: for a plain-text input, extraction succeeds with the input
trimmed exactly when the input has a non-whitespace character, and an
all-whitespace input yields the empty-document failure rather than a success
with empty text. -/
theorem txt_round_trip (s : Str) :
    processDocument true txtMime (.decoded s) =
      (if (trimStr s).isEmpty then
        ⟨false, [], some (str "Failed to read TXT file: TXT file is empty")⟩
       else ⟨true, trimStr s, none⟩) := by
  unfold processDocument
  rw [if_neg (by decide), if_neg (show ¬ txtMime = pdfMime by decide),
    if_neg (show ¬ txtMime = docxMime by decide), if_pos rfl]
  unfold extractTextFromTXT
  dsimp only
  by_cases hemp : (trimStr s).isEmpty
  · simp only [hemp, if_true]
  · simp only [hemp, if_false]
    rfl

/-! ### C2: answer parsing -/

theorem isPrefixCI_cons_false (p c : Char) (ps cs : Str)
    (h : p.toLower ≠ c.toLower) : isPrefixCI (p :: ps) (c :: cs) = false := by
  simp [isPrefixCI, h]

theorem isSpaceChar_cases (c : Char) (h : isSpaceChar c = true) :
    c = ' ' ∨ c = '\t' ∨ c = '\n' ∨ c = '\x0b' ∨ c = '\x0c' ∨ c = '\r' := by
  simp [isSpaceChar] at h
  tauto

theorem citMarker_not_prefix_of_space (c : Char) (cs : Str)
    (h : isSpaceChar c = true) : isPrefixCI citMarker (c :: cs) = false := by
  have hne : ('C' : Char).toLower ≠ c.toLower := by
    rcases isSpaceChar_cases c h with h' | h' | h' | h' | h' | h' <;>
      subst h' <;> decide
  exact isPrefixCI_cons_false 'C' c _ cs hne

theorem takeUntilCI_cons_space (c : Char) (cs : Str)
    (h : isSpaceChar c = true) :
    takeUntilCI citMarker (c :: cs) = c :: takeUntilCI citMarker cs := by
  show (if isPrefixCI citMarker (c :: cs) = true then []
        else c :: takeUntilCI citMarker cs) = c :: takeUntilCI citMarker cs
  rw [citMarker_not_prefix_of_space c cs h]
  rfl

theorem trimStr_cons_space (c : Char) (s : Str) (h : isSpaceChar c = true) :
    trimStr (c :: s) = trimStr s := by
  unfold trimStr trimLeft
  rw [List.dropWhile_cons_of_pos h]

theorem takeUntil_dropWhile_trim (rest : Str) :
    trimStr (takeUntilCI citMarker (rest.dropWhile isSpaceChar)) =
      trimStr (takeUntilCI citMarker rest) := by
  induction rest with
  | nil => rfl
  | cons c cs ih =>
    by_cases hc : isSpaceChar c
    · rw [List.dropWhile_cons_of_pos hc, takeUntilCI_cons_space c cs hc,
        trimStr_cons_space c _ hc]
      exact ih
    · rw [List.dropWhile_cons_of_neg hc]

/-- Claim C2: the parsed answer is the text between the case-insensitive
marker `ANSWER:` and the next `CITATIONS:` (or end of string), trimmed; when
the marker is absent the entire raw output is the answer, and parsing is
total (graceful degradation — `parseQA` returns a result for every input). -/
theorem answer_parsing_spec (full : Str) :
    (parseQA full).answer = specAnswerText full := by
  show answerOf full = specAnswerText full
  unfold answerOf specAnswerText
  cases findAfterCI ansMarker full with
  | none => rfl
  | some rest => exact takeUntil_dropWhile_trim rest

/-! ### C1: two-pass citation extraction -/

theorem collectCites_cons (acc : List Str) (m : Str) (ms : List Str) :
    collectCites acc (m :: ms) =
      (if citeOfMatch m ≠ [] ∧ citeOfMatch m ∉ acc then
        collectCites (acc ++ [citeOfMatch m]) ms
       else collectCites acc ms) := rfl

theorem dedupFirst_cons (seen : List Str) (c : Str) (cs : List Str) :
    dedupFirst seen (c :: cs) =
      (if c ∈ seen then dedupFirst seen cs else dedupFirst (seen ++ [c]) cs) := rfl

theorem collectCites_eq_dedup : ∀ (ms : List Str) (acc : List Str),
    collectCites acc ms =
      dedupFirst acc ((ms.map citeOfMatch).filter (fun c => !c.isEmpty)) := by
  intro ms
  induction ms with
  | nil => intro acc; rfl
  | cons m ms ih =>
    intro acc
    rw [collectCites_cons]
    by_cases hc : citeOfMatch m = []
    · have h2 : ((m :: ms).map citeOfMatch).filter (fun c => !c.isEmpty) =
          (ms.map citeOfMatch).filter (fun c => !c.isEmpty) := by
        simp [hc]
      rw [if_neg (by tauto), h2]
      exact ih acc
    · have h2 : ((m :: ms).map citeOfMatch).filter (fun c => !c.isEmpty) =
          citeOfMatch m :: (ms.map citeOfMatch).filter (fun c => !c.isEmpty) := by
        simp [hc]
      by_cases hmem : citeOfMatch m ∈ acc
      · rw [if_neg (by tauto), h2, dedupFirst_cons, if_pos hmem]
        exact ih acc
      · rw [if_pos ⟨hc, hmem⟩, h2, dedupFirst_cons, if_neg hmem]
        exact ih (acc ++ [citeOfMatch m])

/-- Counterexample to claim C1 as stated: in the raw output
`see [A]. CITATIONS: [ ]` the `CITATIONS:` section contains the bracketed
substring `[ ]`, which the claim's first pass collects as the trimmed empty
citation, so the claim predicts the citation list `[""]` with no fallback;
the code instead discards the entry that is empty after trimming, finds the
first pass empty, falls back to the answer text, and produces `["A"]`. -/
theorem citations_two_pass_counterexample :
    claimCitations (str "see [A]. CITATIONS: [ ]") ≠
      (parseQA (str "see [A]. CITATIONS: [ ]")).citations ∧
    (parseQA (str "see [A]. CITATIONS: [ ]")).citations = [str "A"] ∧
    claimCitations (str "see [A]. CITATIONS: [ ]") = [[]] := by
  refine ⟨?_, ?_, ?_⟩ <;> decide

/-- Amended claim C1: the citation list is computed in two passes — first
over the `CITATIONS:` section, extracting every bracketed substring with
brackets stripped and whitespace trimmed, discarding entries that are empty
after trimming, deduplicated case-sensitively with first occurrence winning;
second, if and only if that pass yields zero citations, the answer text is
scanned under the same rule; if both passes find nothing the citations are
the empty list. -/
theorem citations_two_pass_amended (full : Str) :
    (parseQA full).citations = claimCitationsAmended full := by
  unfold parseQA claimCitationsAmended claimExtractAmended
  dsimp only
  rw [collectCites_eq_dedup, collectCites_eq_dedup]
  by_cases hct : (citationsTextOf full).isEmpty
  · have hnil : citationsTextOf full = [] := by simpa using hct
    rw [if_pos hct, hnil]
    rfl
  · rw [if_neg hct]

/-! ### C3: history pairing -/

theorem findSession_setHistory : ∀ (store : SessionStore) (sid : Str)
    (h : List ConversationMessage) (sess : DocumentSession),
    findSession store sid = some sess →
    findSession (setHistory store sid h) sid =
      some { sess with conversationHistory := h } := by
  intro store
  induction store with
  | nil =>
    intro sid h sess hf
    exact absurd hf (by simp [findSession])
  | cons p rest ih =>
    intro sid h sess hf
    obtain ⟨k, s⟩ := p
    by_cases hk : k = sid
    · unfold findSession at hf
      rw [if_pos hk] at hf
      injection hf with hf'
      subst hf'
      show findSession (if k = sid then (k, { s with conversationHistory := h }) :: rest
        else (k, s) :: setHistory rest sid h) sid = _
      rw [if_pos hk]
      unfold findSession
      rw [if_pos hk]
    · unfold findSession at hf
      rw [if_neg hk] at hf
      show findSession (if k = sid then (k, { s with conversationHistory := h }) :: rest
        else (k, s) :: setHistory rest sid h) sid = _
      rw [if_neg hk]
      unfold findSession
      rw [if_neg hk]
      exact ih sid h sess hf

theorem chat_cases (store : SessionStore) (sid q : Str) (hk : Bool)
    (call : ModelCall) :
    (∃ e m, chatWithDocument store sid q hk call = (.badRequest e m, store)) ∨
    (∃ e m, chatWithDocument store sid q hk call = (.notFound e m, store)) ∨
    (∃ e m, chatWithDocument store sid q hk call = (.serverError e m, store)) ∨
    (∃ sess d, findSession store sid = some sess ∧
      (askQuestion q sess.text hk call).data = some d ∧
      chatWithDocument store sid q hk call =
        (.ok d.answer d.citations
          (sess.conversationHistory ++ [⟨.user, q⟩, ⟨.model, d.answer⟩]),
         setHistory store sid
          (sess.conversationHistory ++ [⟨.user, q⟩, ⟨.model, d.answer⟩]))) := by
  unfold chatWithDocument
  by_cases hg : (sid.isEmpty || q.isEmpty) = true
  · rw [if_pos hg]
    exact Or.inl ⟨_, _, rfl⟩
  · rw [if_neg hg]
    cases hf : findSession store sid with
    | none => exact Or.inr (Or.inl ⟨_, _, rfl⟩)
    | some sess =>
      dsimp only
      by_cases hs : (!(askQuestion q sess.text hk call).success) = true
      · rw [if_pos hs]
        exact Or.inr (Or.inr (Or.inl ⟨_, _, rfl⟩))
      · rw [if_neg hs]
        cases hd : (askQuestion q sess.text hk call).data with
        | none => exact Or.inr (Or.inr (Or.inl ⟨_, _, rfl⟩))
        | some d => exact Or.inr (Or.inr (Or.inr ⟨sess, d, rfl, hd, rfl⟩))

theorem chat_ok_step (store : SessionStore) (sid q : Str) (hk : Bool)
    (call : ModelCall) (a : Str) (c : List Str) (h' : List ConversationMessage)
    (h : (chatWithDocument store sid q hk call).1 = .ok a c h') :
    h' = historyIn store sid ++ [⟨.user, q⟩, ⟨.model, a⟩] ∧
    historyIn (chatWithDocument store sid q hk call).2 sid = h' := by
  rcases chat_cases store sid q hk call with
    ⟨e, m, hc⟩ | ⟨e, m, hc⟩ | ⟨e, m, hc⟩ | ⟨sess, d, hf, _, hc⟩
  · rw [hc] at h; exact absurd h (by simp)
  · rw [hc] at h; exact absurd h (by simp)
  · rw [hc] at h; exact absurd h (by simp)
  · rw [hc] at h
    injection h with ha hcit hh
    subst ha
    subst hh
    have hhist : historyIn store sid = sess.conversationHistory := by
      unfold historyIn
      rw [hf]
    constructor
    · rw [hhist]
    · rw [hc]
      show historyIn (setHistory store sid _) sid = _
      unfold historyIn
      rw [findSession_setHistory store sid _ sess hf]

theorem chat_fail_state (store : SessionStore) (sid q : Str) (hk : Bool)
    (call : ModelCall)
    (h : (chatWithDocument store sid q hk call).1.isOk = false) :
    (chatWithDocument store sid q hk call).2 = store := by
  rcases chat_cases store sid q hk call with
    ⟨e, m, hc⟩ | ⟨e, m, hc⟩ | ⟨e, m, hc⟩ | ⟨sess, d, hf, _, hc⟩
  · rw [hc]
  · rw [hc]
  · rw [hc]
  · rw [hc] at h
    simp [ChatResp.isOk] at h

theorem runChat_ok_spec (sid : Str) (hk : Bool) :
    ∀ (inputs : List (Str × ModelCall)) (store : SessionStore),
    (∀ r ∈ (runChat sid hk store inputs).1, r.isOk = true) →
    (runChat sid hk store inputs).1.length = inputs.length ∧
    historyIn (runChat sid hk store inputs).2 sid =
      historyIn store sid ++ pairsOf inputs (runChat sid hk store inputs).1 := by
  intro inputs
  induction inputs with
  | nil =>
    intro store hok
    exact ⟨rfl, by simp [runChat, pairsOf]⟩
  | cons p rest ih =>
    intro store hok
    obtain ⟨q, call⟩ := p
    have hstep : (chatWithDocument store sid q hk call).1.isOk = true := by
      apply hok
      show _ ∈ (chatWithDocument store sid q hk call).1 ::
        (runChat sid hk (chatWithDocument store sid q hk call).2 rest).1
      exact List.mem_cons_self _ _
    obtain ⟨a, c, h', hshape⟩ :
        ∃ a c h', (chatWithDocument store sid q hk call).1 = .ok a c h' := by
      cases hr : (chatWithDocument store sid q hk call).1 with
      | ok a c h => exact ⟨a, c, h, rfl⟩
      | badRequest e m => rw [hr] at hstep; simp [ChatResp.isOk] at hstep
      | notFound e m => rw [hr] at hstep; simp [ChatResp.isOk] at hstep
      | serverError e m => rw [hr] at hstep; simp [ChatResp.isOk] at hstep
    obtain ⟨hnew, hafter⟩ := chat_ok_step store sid q hk call a c h' hshape
    have hrest_ok : ∀ r ∈ (runChat sid hk
        (chatWithDocument store sid q hk call).2 rest).1, r.isOk = true := by
      intro r hr
      apply hok
      show _ ∈ (chatWithDocument store sid q hk call).1 ::
        (runChat sid hk (chatWithDocument store sid q hk call).2 rest).1
      exact List.mem_cons_of_mem _ hr
    obtain ⟨hlen, hhist⟩ := ih (chatWithDocument store sid q hk call).2 hrest_ok
    constructor
    · show ((chatWithDocument store sid q hk call).1 ::
        (runChat sid hk (chatWithDocument store sid q hk call).2 rest).1).length = _
      rw [List.length_cons, hlen]
      rfl
    · show historyIn (runChat sid hk (chatWithDocument store sid q hk call).2 rest).2 sid =
        historyIn store sid ++ pairsOf ((q, call) :: rest)
          ((chatWithDocument store sid q hk call).1 ::
            (runChat sid hk (chatWithDocument store sid q hk call).2 rest).1)
      rw [hhist, hafter, hnew]
      show (historyIn store sid ++ [⟨.user, q⟩, ⟨.model, a⟩]) ++ _ =
        historyIn store sid ++ (⟨.user, q⟩ :: ⟨.model,
          ((chatWithDocument store sid q hk call).1).answerOf⟩ :: pairsOf rest _)
      rw [hshape]
      show (historyIn store sid ++ [⟨.user, q⟩, ⟨.model, a⟩]) ++ _ =
        historyIn store sid ++ (⟨.user, q⟩ :: ⟨.model, a⟩ :: pairsOf rest _)
      rw [List.append_assoc]
      rfl

theorem pairsOf_length : ∀ (inputs : List (Str × ModelCall))
    (resps : List ChatResp), resps.length = inputs.length →
    (pairsOf inputs resps).length = 2 * inputs.length := by
  intro inputs
  induction inputs with
  | nil =>
    intro resps h
    cases resps with
    | nil => rfl
    | cons r rs => simp at h
  | cons p rest ih =>
    intro resps h
    obtain ⟨q, call⟩ := p
    cases resps with
    | nil => simp at h
    | cons r rs =>
      have hlen : rs.length = rest.length := by simpa using h
      show (⟨.user, q⟩ :: ⟨.model, r.answerOf⟩ :: pairsOf rest rs).length = _
      rw [List.length_cons, List.length_cons, ih rs hlen, List.length_cons]
      ring

theorem pairsOf_getD : ∀ (inputs : List (Str × ModelCall))
    (resps : List ChatResp), resps.length = inputs.length →
    ∀ i, i < inputs.length →
    (pairsOf inputs resps).getD (2*i) ⟨.user, []⟩ =
      ⟨.user, (inputs.getD i ([], .threw [])).1⟩ ∧
    (pairsOf inputs resps).getD (2*i+1) ⟨.user, []⟩ =
      ⟨.model, (resps.getD i (.badRequest [] [])).answerOf⟩ := by
  intro inputs
  induction inputs with
  | nil =>
    intro resps h i hi
    simp at hi
  | cons p rest ih =>
    intro resps h i hi
    obtain ⟨q, call⟩ := p
    cases resps with
    | nil => simp at h
    | cons r rs =>
      have hlen : rs.length = rest.length := by simpa using h
      cases i with
      | zero => exact ⟨rfl, rfl⟩
      | succ j =>
        have hj : j < rest.length := by simpa using hi
        have e1 : 2*(j+1) = 2*j + 1 + 1 := by ring
        have e2 : 2*(j+1)+1 = (2*j+1) + 1 + 1 := by ring
        constructor
        · show (⟨.user, q⟩ :: ⟨.model, r.answerOf⟩ :: pairsOf rest rs).getD
            (2*(j+1)) ⟨.user, []⟩ = _
          rw [e1, List.getD_cons_succ, List.getD_cons_succ]
          exact (ih rs hlen j hj).1
        · show (⟨.user, q⟩ :: ⟨.model, r.answerOf⟩ :: pairsOf rest rs).getD
            (2*(j+1)+1) ⟨.user, []⟩ = _
          rw [e2, List.getD_cons_succ, List.getD_cons_succ]
          exact (ih rs hlen j hj).2

/-- Claim C3: (a) a successful ask appends exactly one user turn carrying the
question and one model turn carrying the answer, and returns the post-append
history; (b) a failed ask leaves the store — hence the session's history —
unchanged; (c) after `N` successful asks on one session starting from its
creation, the stored history has length `2N`, with the turn at index `2i`
being the `i`-th question as a user turn and the turn at index `2i + 1` being
the model turn carrying the `i`-th returned answer. -/
theorem history_pairing :
    (∀ (store : SessionStore) (sid q : Str) (hk : Bool) (call : ModelCall)
        (a : Str) (c : List Str) (h' : List ConversationMessage),
      (chatWithDocument store sid q hk call).1 = .ok a c h' →
      h' = historyIn store sid ++ [⟨.user, q⟩, ⟨.model, a⟩] ∧
      historyIn (chatWithDocument store sid q hk call).2 sid = h') ∧
    (∀ (store : SessionStore) (sid q : Str) (hk : Bool) (call : ModelCall),
      (chatWithDocument store sid q hk call).1.isOk = false →
      (chatWithDocument store sid q hk call).2 = store) ∧
    (∀ (sid : Str) (hk : Bool) (base : DocumentSession)
        (inputs : List (Str × ModelCall)),
      base.conversationHistory = [] →
      (∀ r ∈ (runChat sid hk [(sid, base)] inputs).1, r.isOk = true) →
      (historyIn (runChat sid hk [(sid, base)] inputs).2 sid).length =
        2 * inputs.length ∧
      (∀ i, i < inputs.length →
        (historyIn (runChat sid hk [(sid, base)] inputs).2 sid).getD (2*i)
            ⟨.user, []⟩ =
          ⟨.user, (inputs.getD i ([], .threw [])).1⟩ ∧
        (historyIn (runChat sid hk [(sid, base)] inputs).2 sid).getD (2*i+1)
            ⟨.user, []⟩ =
          ⟨.model, ((runChat sid hk [(sid, base)] inputs).1.getD i
            (.badRequest [] [])).answerOf⟩)) := by
  refine ⟨chat_ok_step, chat_fail_state, ?_⟩
  intro sid hk base inputs hbase hok
  have hinit : historyIn [(sid, base)] sid = [] := by
    unfold historyIn findSession
    rw [if_pos rfl]
    exact hbase
  obtain ⟨hlen, hhist⟩ := runChat_ok_spec sid hk inputs [(sid, base)] hok
  rw [hinit, List.nil_append] at hhist
  constructor
  · rw [hhist]
    exact pairsOf_length inputs _ hlen
  · intro i hi
    rw [hhist]
    exact pairsOf_getD inputs _ hlen i hi

/-- Witness for C3: a concrete run of two successful asks on one session —
the theorem instantiated at a singleton store, two model calls that return
`ANSWER:`-formatted output, with both indexed conclusions extracted. -/
theorem history_pairing_witness :
    (historyIn (runChat (str "s1") true
        [(str "s1", ⟨str "f.txt", str "p", txtMime, str "body", str "d", []⟩)]
        [(str "q1", .returned (some (str "ANSWER: a1"))),
         (str "q2", .returned (some (str "ANSWER: a2")))]).2 (str "s1")).length =
      2 * 2 ∧
    (historyIn (runChat (str "s1") true
        [(str "s1", ⟨str "f.txt", str "p", txtMime, str "body", str "d", []⟩)]
        [(str "q1", .returned (some (str "ANSWER: a1"))),
         (str "q2", .returned (some (str "ANSWER: a2")))]).2 (str "s1")).getD 0
        ⟨.user, []⟩ = ⟨.user, str "q1"⟩ ∧
    (historyIn (runChat (str "s1") true
        [(str "s1", ⟨str "f.txt", str "p", txtMime, str "body", str "d", []⟩)]
        [(str "q1", .returned (some (str "ANSWER: a1"))),
         (str "q2", .returned (some (str "ANSWER: a2")))]).2 (str "s1")).getD 3
        ⟨.user, []⟩ = ⟨.model, str "a2"⟩ := by
  have h := history_pairing.2.2 (str "s1") true
    ⟨str "f.txt", str "p", txtMime, str "body", str "d", []⟩
    [(str "q1", .returned (some (str "ANSWER: a1"))),
     (str "q2", .returned (some (str "ANSWER: a2")))]
    rfl (by decide)
  refine ⟨h.1, ?_, ?_⟩
  · have h0 := (h.2 0 (by decide)).1
    rw [h0]
    decide
  · have h1 := (h.2 1 (by decide)).2
    rw [h1]
    decide

/-! ### C5: ask error cases -/

/-- Counterexample to claim C5 as stated: with a valid session, a non-blank
question and a configured credential, a model call that completes but carries
no content is coalesced to the empty string, parsed, and returned as a
success with an empty answer and no citations — not an `UpstreamError`
failure as the claim requires. -/
theorem ask_error_cases_counterexample :
    (chatWithDocument
      [(str "s1", ⟨str "f.txt", str "p", txtMime, str "body", str "d", []⟩)]
      (str "s1") (str "What?") true (.returned none)).1 =
    .ok [] [] [⟨.user, str "What?"⟩, ⟨.model, []⟩] := by
  decide

theorem trimStr_ne_nil_of (q : Str) (h : trimStr q ≠ []) : q ≠ [] := by
  intro hq
  subst hq
  exact h rfl

theorem isEmpty_false_of_ne (q : Str) (h : q ≠ []) : q.isEmpty = false := by
  cases q with
  | nil => exact absurd rfl h
  | cons c cs => rfl

/-- Amended claim C5: the ask operation fails with the empty-question 400
when the question is the empty string (checked before the session lookup);
with `NotFound` when the session is absent (so a whitespace-only question on
an absent session reports `NotFound`); with the service-level
`Question cannot be empty` error when the question is whitespace-only and the
session exists; with the configuration error when the model credential is
absent; with `UpstreamError` (the wrapped `Failed to answer question` error)
when the model call throws; and in every other case — valid session with
non-blank document text, non-blank question, configured credential, model
call completed — it succeeds, even when the completed call carries no
content, in which case the answer is the empty string. -/
theorem ask_error_cases_amended (store : SessionStore) (sid q : Str)
    (hk : Bool) (call : ModelCall) (hsid : sid ≠ [])
    (htext : ∀ s, findSession store sid = some s → trimStr s.text ≠ []) :
    (q = [] →
      chatWithDocument store sid q hk call =
        (.badRequest (str "Invalid request")
          (str "sessionId and question are required"), store)) ∧
    (q ≠ [] → findSession store sid = none →
      chatWithDocument store sid q hk call =
        (.notFound (str "Session not found")
          (str "Invalid sessionId or session expired"), store)) ∧
    (∀ s, q ≠ [] → trimStr q = [] → findSession store sid = some s →
      chatWithDocument store sid q hk call =
        (.serverError (str "AI service error")
          (str "Question cannot be empty"), store)) ∧
    (∀ s, trimStr q ≠ [] → findSession store sid = some s → hk = false →
      chatWithDocument store sid q hk call =
        (.serverError (str "AI service error")
          (str "OPENAI_API_KEY is not configured"), store)) ∧
    (∀ s msg, trimStr q ≠ [] → findSession store sid = some s → hk = true →
      call = .threw msg →
      chatWithDocument store sid q hk call =
        (.serverError (str "AI service error")
          (str "Failed to answer question: " ++ msg), store)) ∧
    (∀ s content, trimStr q ≠ [] → findSession store sid = some s →
      hk = true → call = .returned content →
      (chatWithDocument store sid q hk call).1 =
        .ok (parseQA (content.getD [])).answer
          (parseQA (content.getD [])).citations
          (s.conversationHistory ++
            [⟨.user, q⟩, ⟨.model, (parseQA (content.getD [])).answer⟩])) := by
  have hsid' : sid.isEmpty = false := isEmpty_false_of_ne sid hsid
  refine ⟨?_, ?_, ?_, ?_, ?_, ?_⟩
  · intro hq
    subst hq
    unfold chatWithDocument
    rw [if_pos (by simp [hsid'])]
  · intro hq hf
    unfold chatWithDocument
    rw [if_neg (by simp [hsid', isEmpty_false_of_ne q hq]), hf]
  · intro s hq htrim hf
    have haq : askQuestion q s.text hk call =
        ⟨false, none, some (str "Question cannot be empty")⟩ := by
      unfold askQuestion
      rw [if_pos (by simp [htrim])]
    unfold chatWithDocument
    rw [if_neg (by simp [hsid', isEmpty_false_of_ne q hq]), hf]
    dsimp only
    rw [haq]
    rfl
  · intro s htrim hf hkey
    subst hkey
    have haq : askQuestion q s.text false call =
        ⟨false, none, some (str "OPENAI_API_KEY is not configured")⟩ := by
      unfold askQuestion
      rw [if_neg (by simp [htrim]), if_neg (by simp [htext s hf])]
      rfl
    unfold chatWithDocument
    rw [if_neg (by simp [hsid', isEmpty_false_of_ne q (trimStr_ne_nil_of q htrim)]), hf]
    dsimp only
    rw [haq]
    rfl
  · intro s msg htrim hf hkey hcall
    subst hkey
    subst hcall
    have haq : askQuestion q s.text true (.threw msg) =
        ⟨false, none, some (str "Failed to answer question: " ++ msg)⟩ := by
      unfold askQuestion
      rw [if_neg (by simp [htrim]), if_neg (by simp [htext s hf])]
      rfl
    unfold chatWithDocument
    rw [if_neg (by simp [hsid', isEmpty_false_of_ne q (trimStr_ne_nil_of q htrim)]), hf]
    dsimp only
    rw [haq]
    rfl
  · intro s content htrim hf hkey hcall
    subst hkey
    subst hcall
    have haq : askQuestion q s.text true (.returned content) =
        ⟨true, some (parseQA (content.getD [])), none⟩ := by
      unfold askQuestion
      rw [if_neg (by simp [htrim]), if_neg (by simp [htext s hf])]
      rfl
    unfold chatWithDocument
    rw [if_neg (by simp [hsid', isEmpty_false_of_ne q (trimStr_ne_nil_of q htrim)]), hf]
    dsimp only
    rw [haq]
    rfl

/-- Witness for the amended C5: every failure clause and the success clause,
each discharged at a concrete input through the theorem. -/
theorem ask_error_cases_witness :
    chatWithDocument
        [(str "s1", ⟨str "f.txt", str "p", txtMime, str "body", str "d", []⟩)]
        (str "s1") (str "  ") true (.returned (some (str "hi"))) =
      (.serverError (str "AI service error") (str "Question cannot be empty"),
        [(str "s1", ⟨str "f.txt", str "p", txtMime, str "body", str "d", []⟩)]) ∧
    chatWithDocument
        [(str "s1", ⟨str "f.txt", str "p", txtMime, str "body", str "d", []⟩)]
        (str "s1") (str "What?") true (.threw (str "boom")) =
      (.serverError (str "AI service error")
          (str "Failed to answer question: " ++ str "boom"),
        [(str "s1", ⟨str "f.txt", str "p", txtMime, str "body", str "d", []⟩)]) ∧
    (chatWithDocument
        [(str "s1", ⟨str "f.txt", str "p", txtMime, str "body", str "d", []⟩)]
        (str "s1") (str "What?") true
        (.returned (some (str "ANSWER: yes [S1]")))).1 =
      .ok (parseQA (str "ANSWER: yes [S1]")).answer
        (parseQA (str "ANSWER: yes [S1]")).citations
        ([] ++ [⟨.user, str "What?"⟩,
          ⟨.model, (parseQA (str "ANSWER: yes [S1]")).answer⟩]) := by
  have hbase := ask_error_cases_amended
    [(str "s1", ⟨str "f.txt", str "p", txtMime, str "body", str "d", []⟩)]
    (str "s1") (str "  ") true (.returned (some (str "hi")))
    (by decide) (by intro s hs; injection hs with hs'; subst hs'; decide)
  have hbase2 := ask_error_cases_amended
    [(str "s1", ⟨str "f.txt", str "p", txtMime, str "body", str "d", []⟩)]
    (str "s1") (str "What?") true (.threw (str "boom"))
    (by decide) (by intro s hs; injection hs with hs'; subst hs'; decide)
  have hbase3 := ask_error_cases_amended
    [(str "s1", ⟨str "f.txt", str "p", txtMime, str "body", str "d", []⟩)]
    (str "s1") (str "What?") true (.returned (some (str "ANSWER: yes [S1]")))
    (by decide) (by intro s hs; injection hs with hs'; subst hs'; decide)
  refine ⟨?_, ?_, ?_⟩
  · exact hbase.2.2.1 ⟨str "f.txt", str "p", txtMime, str "body", str "d", []⟩ (by decide) (by decide) (by decide)
  · exact hbase2.2.2.2.2.1 ⟨str "f.txt", str "p", txtMime, str "body", str "d", []⟩ (str "boom") (by decide) (by decide) rfl rfl
  · exact hbase3.2.2.2.2.2 ⟨str "f.txt", str "p", txtMime, str "body", str "d", []⟩ (some (str "ANSWER: yes [S1]"))
      (by decide) (by decide) rfl rfl

/-! ### C8: idempotent, read-only export -/

/-- Claim C8: the export handler leaves the session store untouched, and
rendering twice on the same unchanged session produces a byte-identical
response (in particular byte-identical markdown). -/
theorem export_idempotent_readonly (sessions : SessionStore) (sid : Str) :
    (exportNotes sessions sid).2 = sessions ∧
    (exportNotes (exportNotes sessions sid).2 sid).1 = (exportNotes sessions sid).1 := by
  have h2 : (exportNotes sessions sid).2 = sessions := by
    unfold exportNotes
    split
    · rfl
    · split <;> rfl
  exact ⟨h2, by rw [h2]⟩

/-! ### C10: export of an odd-length history -/

theorem qaPairs_odd : ∀ (k : Nat) (h : List ConversationMessage) (n : Nat),
    h.length = 2*k + 1 → qaPairs h n = qaBlocksFrom h k n := by
  intro k
  induction k with
  | zero =>
    intro h n hlen
    cases h with
    | nil => simp at hlen
    | cons q t =>
      cases t with
      | nil => rfl
      | cons a rest => simp at hlen <;> omega
  | succ k ih =>
    intro h n hlen
    cases h with
    | nil => simp at hlen
    | cons q t =>
      cases t with
      | nil => simp at hlen <;> omega
      | cons a rest =>
        have hrest : rest.length = 2*k + 1 := by
          simp at hlen
          omega
        show qaBlock q a n ++ qaPairs rest (n+1) = _
        rw [ih rest (n+1) hrest]
        unfold qaBlocksFrom
        rw [List.range_succ_eq_map, List.map_cons, List.map_map, List.flatten_cons]
        have htail : (List.range k).map (fun i =>
              qaBlock (rest.getD (2*i) ⟨.user, []⟩)
                (rest.getD (2*i+1) ⟨.user, []⟩) ((n+1) + i)) =
            (List.range k).map ((fun i =>
              qaBlock ((q :: a :: rest).getD (2*i) ⟨.user, []⟩)
                ((q :: a :: rest).getD (2*i+1) ⟨.user, []⟩) (n + i)) ∘ Nat.succ) := by
          apply List.map_congr_left
          intro i _
          show qaBlock (rest.getD (2*i) ⟨.user, []⟩)
              (rest.getD (2*i+1) ⟨.user, []⟩) ((n+1) + i) =
            qaBlock ((q :: a :: rest).getD (2*(i+1)) ⟨.user, []⟩)
              ((q :: a :: rest).getD (2*(i+1)+1) ⟨.user, []⟩) (n + (i+1))
          have e1 : 2*(i+1) = 2*i + 1 + 1 := by ring
          have e2 : 2*(i+1)+1 = (2*i+1) + 1 + 1 := by ring
          have e3 : n + (i + 1) = (n+1) + i := by ring
          simp only [e1, e2, e3, List.getD_cons_succ]
        rw [← htail]
        rfl

theorem qaPairs_dropLast_odd : ∀ (k : Nat) (h : List ConversationMessage) (n : Nat),
    h.length = 2*k + 1 → qaPairs h n = qaPairs h.dropLast n := by
  intro k
  induction k with
  | zero =>
    intro h n hlen
    cases h with
    | nil => simp at hlen
    | cons q t =>
      cases t with
      | nil => rfl
      | cons a rest => simp at hlen <;> omega
  | succ k ih =>
    intro h n hlen
    cases h with
    | nil => simp at hlen
    | cons q t =>
      cases t with
      | nil => simp at hlen <;> omega
      | cons a rest =>
        have hrest : rest.length = 2*k + 1 := by
          simp at hlen
          omega
        cases rest with
        | nil => simp at hrest
        | cons r rs =>
          show qaBlock q a n ++ qaPairs (r :: rs) (n+1) =
            qaBlock q a n ++ qaPairs ((r :: rs).dropLast) (n+1)
          rw [ih (r :: rs) (n+1) hrest]

/-- Claim C10: for a session whose history has odd length `2k + 1`, the
transcript export renders exactly `k` question/answer pairs (the blocks drawn
from positions `2i` and `2i + 1` for `i < k`), and the trailing unpaired turn
is silently omitted — dropping it changes nothing in the rendered pairs. -/
theorem export_odd_history (s : DocumentSession) (k : Nat)
    (hlen : s.conversationHistory.length = 2*k + 1) :
    exportMarkdown s = exportHeader s ++ qaBlocksFrom s.conversationHistory k 0 ∧
    qaPairs s.conversationHistory 0 = qaPairs s.conversationHistory.dropLast 0 := by
  constructor
  · unfold exportMarkdown exportHeader
    have hne : ¬ s.conversationHistory.isEmpty = true := by
      cases hc : s.conversationHistory with
      | nil => rw [hc] at hlen; simp at hlen
      | cons x xs => simp
    rw [if_neg hne, qaPairs_odd k _ 0 hlen]
  · exact qaPairs_dropLast_odd k _ 0 hlen

/-- Witness for C10 at a three-turn history. -/
theorem export_odd_history_witness :
    exportMarkdown sampleOddSession =
      exportHeader sampleOddSession ++
        qaBlocksFrom sampleOddSession.conversationHistory 1 0 ∧
    qaPairs sampleOddSession.conversationHistory 0 =
      qaPairs sampleOddSession.conversationHistory.dropLast 0 :=
  export_odd_history sampleOddSession 1 (by decide)

/-! ### C6: upload boundary -/

/-- Counterexample to claim C6 as stated: a file named `doc.pdf` with declared
MIME type `text/plain` is accepted by the upload boundary, not rejected with a
type error — the extension and the MIME type are validated independently
against their allow-lists, with no cross-check that they denote the same
format. -/
theorem upload_boundary_counterexample :
    uploadBoundary (str "doc.pdf") (str "text/plain") 5 = .accepted ∧
    fileFilter (str "doc.pdf") (str "text/plain") = none := by
  constructor <;> decide

/-- Amended claim C6: a 10,485,761-byte file whose extension and MIME type
are each in the allow-lists is rejected with a size error; a file whose
extension or declared MIME type is outside its allow-list is rejected with a
type error; a file whose extension and MIME type are each in the allow-lists
— not necessarily denoting the same kind, e.g. `.pdf` with `text/plain` —
and whose size is within the 10,485,760-byte limit is accepted (extraction
permitting). -/
theorem upload_boundary_amended (name mime : Str) (size : Nat) :
    (((extname name).map Char.toLower) ∈ ALLOWED_EXTENSIONS →
      mime ∈ ALLOWED_MIME_TYPES →
      uploadBoundary name mime size =
        (if size > MAX_FILE_SIZE then .sizeRejected else .accepted)) ∧
    (((extname name).map Char.toLower) ∉ ALLOWED_EXTENSIONS ∨
        mime ∉ ALLOWED_MIME_TYPES →
      ∃ msg, uploadBoundary name mime size = .typeRejected msg) := by
  constructor
  · intro hext hmime
    unfold uploadBoundary fileFilter
    rw [if_neg (by simpa using hext), if_neg (by simpa using hmime)]
  · intro hbad
    unfold uploadBoundary fileFilter
    by_cases hext : ((extname name).map Char.toLower) ∈ ALLOWED_EXTENSIONS
    · have hmime : mime ∉ ALLOWED_MIME_TYPES := by tauto
      rw [if_neg (by simpa using hext), if_pos hmime]
      exact ⟨_, rfl⟩
    · rw [if_pos hext]
      exact ⟨_, rfl⟩

/-- Witness for the amended upload-boundary claim: the 10,485,761-byte
rejection and an acceptance at the limit, both obtained from the theorem. -/
theorem upload_boundary_amended_witness :
    uploadBoundary (str "doc.pdf") (str "application/pdf") 10485761 = .sizeRejected ∧
    uploadBoundary (str "doc.docx")
      (str "application/vnd.openxmlformats-officedocument.wordprocessingml.document")
      10485760 = .accepted := by
  constructor
  · have h := (upload_boundary_amended (str "doc.pdf") (str "application/pdf")
      10485761).1 (by decide) (by decide)
    rw [h]
    decide
  · have h := (upload_boundary_amended (str "doc.docx")
      (str "application/vnd.openxmlformats-officedocument.wordprocessingml.document")
      10485760).1 (by decide) (by decide)
    rw [h]
    decide

/-! ### C9: storage filename -/

/-- Counterexample to claim C9 as stated: for the original name `a-b.txt`
the hyphen is a non-alphanumeric character, so the claim predicts it is
sanitized to an underscore, but the storage engine's character class
`[^a-zA-Z0-9-_]` preserves hyphens: the actual on-disk name keeps `a-b`. -/
theorem storage_filename_counterexample :
    claimStorageName (str "a-b.txt") 7 ≠ storageFilename (str "a-b.txt") 7 ∧
    storageFilename (str "a-b.txt") 7 = str "a-b_7.txt" := by
  constructor
  · decide
  · decide

/-- Amended claim C9: the on-disk name of every stored uploaded file is
derived deterministically from the original filename plus the upload
timestamp, with every character of the base name other than ASCII letters,
digits, hyphen and underscore sanitized to an underscore. -/
theorem storage_filename_amended (name : Str) (ts : Nat) :
    storageFilename name ts = claimStorageNameAmended name ts := by
  have hc : sanitizeChar = claimSanitizeAmended := by
    funext c
    unfold sanitizeChar claimSanitizeAmended
    split_ifs with h1 h2 <;> first | rfl | tauto
  unfold storageFilename claimStorageNameAmended
  rw [hc]

end DocQA
